import Mathlib

/-!
Shallow embedding of `tools/update_bivalve_peaks_navd88.js`: the flood-peak
extraction core (candidate detection, declustering, severity classification),
the event-store merge with key-based deduplication, and the orchestrator's
update pass (`main`).

Modelling choices:
* timestamps are `ℤ` (milliseconds since epoch, the value of
  `new Date(t).getTime()` on a valid ISO string);
* water-level values are `ℚ` (JS numbers, with `Math.round` modelled exactly);
* a raw sample carries `Option` fields: `none` models a falsy timestamp
  (dropped by `p.t &&`) resp. a non-finite value (dropped by
  `Number.isFinite(p.ft)`);
* JS `Array.prototype.sort` is stable (ES2019), modelled by the stable
  `List.insertionSort`;
* the fetch itself is an external collaborator: the update pass takes the
  fetched value list as a parameter.
-/

namespace Bivalve

/-- Severity tier of a peak event (`type` field written by the classifier). -/
inductive Tier where
  | Below
  | Minor
  | Moderate
  | Major
deriving DecidableEq, Repr

/-- The `thresholdsNAVD88` object: `{minorLow, moderateLow, majorLow}`. -/
structure ThresholdSet where
  minorLow : ℚ
  moderateLow : ℚ
  majorLow : ℚ
deriving DecidableEq, Repr

/-- A raw series point as produced by the USGS fetch before filtering:
`t` is `none` when the `dateTime` field is falsy, `ft` is `none` when
`Number(v.value)` is not finite. -/
structure RawSample where
  t : Option ℤ
  ft : Option ℚ
deriving DecidableEq, Repr

/-- A filtered series point `{t, ft}`: valid timestamp, finite value. -/
structure Sample where
  t : ℤ
  ft : ℚ
deriving DecidableEq, Repr

/-- A persisted peak event `{t, ft, type}`. -/
structure Event where
  t : ℤ
  ft : ℚ
  type : Tier
deriving DecidableEq, Repr

/-- Constant `PEAK_MIN_SEP_MINUTES = 300`. -/
def PEAK_MIN_SEP_MINUTES : ℤ := 300

/-- Constant `minSepMs = PEAK_MIN_SEP_MINUTES * 60 * 1000`. -/
def minSepMs : ℤ := PEAK_MIN_SEP_MINUTES * 60 * 1000

/-- Rounding `roundFt(x) = Math.round(x * 1000) / 1000`. JS `Math.round` rounds
half-way cases toward positive infinity, i.e. `Math.round y = ⌊y + 1/2⌋`. -/
def roundFt (x : ℚ) : ℚ := (⌊x * 1000 + 1 / 2⌋ : ℤ) / 1000

/-- The filter step of the series normalization:
`.filter(p => p.t && Number.isFinite(p.ft))` keeps exactly the points with a
truthy timestamp and a finite value. -/
def toSample (r : RawSample) : Option Sample :=
  match r.t, r.ft with
  | some t, some ft => some ⟨t, ft⟩
  | _, _ => none

/-- The comparator `(a, b) => new Date(a.t) - new Date(b.t)` on samples. -/
def sampleLE (a b : Sample) : Prop := a.t ≤ b.t

instance : DecidableRel sampleLE := fun a b => Int.decLe a.t b.t

instance : IsTotal Sample sampleLE := ⟨fun a b => le_total a.t b.t⟩

instance : IsTrans Sample sampleLE := ⟨fun _ _ _ => le_trans⟩

/-- The call `.sort((a, b) => new Date(a.t) - new Date(b.t))`: stable sort by
timestamp ascending. -/
def sortByTime (l : List Sample) : List Sample :=
  l.insertionSort sampleLE

/-- The series shape returned by `fetchUSGSIV`: map to `{t, ft}`, drop
falsy/non-finite points, sort ascending by time. -/
def fetchNormalize (vals : List RawSample) : List Sample :=
  sortByTime (vals.filterMap toSample)

/-- The candidate test of the extraction loop body, for the triple
`a = pts[i-1]`, `b = pts[i]`, `c = pts[i+1]`:
`b.ft >= a.ft && b.ft >= c.ft` and not `(b.ft === a.ft && b.ft === c.ft)`. -/
def candidateCond (a b c : Sample) : Prop :=
  (a.ft ≤ b.ft ∧ c.ft ≤ b.ft) ∧ ¬(b.ft = a.ft ∧ b.ft = c.ft)

instance (a b c : Sample) : Decidable (candidateCond a b c) := by
  unfold candidateCond; infer_instance

/-- The candidate-detection loop
`for (let i = 1; i < pts.length - 1; i++) { ... candidates.push(b); }`,
expressed as a walk over consecutive triples: the window `[a, b, c]` is
`pts[i-1], pts[i], pts[i+1]` and `b` is pushed when `candidateCond` holds. -/
def candidates : List Sample → List Sample
  | a :: b :: c :: rest =>
      (if candidateCond a b c then [b] else []) ++ candidates (b :: c :: rest)
  | _ => []

/-- The decluster loop (`for (let i = 1; i < candidates.length; i++)`): `cur`
is the current representative; a candidate within `minSep` of `cur` replaces
it only when strictly larger; otherwise `cur` is emitted and the candidate
starts a new cluster. The final `kept.push(cur)` is the base case. -/
def declusterGo (minSep : ℤ) (cur : Sample) : List Sample → List Sample
  | [] => [cur]
  | p :: rest =>
      if p.t - cur.t ≤ minSep then
        if cur.ft < p.ft then declusterGo minSep p rest
        else declusterGo minSep cur rest
      else
        cur :: declusterGo minSep p rest

/-- Declustering: `cur = candidates[0]`, then the loop `declusterGo`. -/
def decluster (minSep : ℤ) : List Sample → List Sample
  | [] => []
  | c :: cs => declusterGo minSep c cs

/-- The classification cascade at the end of `extractFloodPeaks_NAVD`:
`if (p.ft >= T.majorLow) "Major" else if (p.ft >= T.moderateLow) "Moderate"
else if (p.ft >= T.minorLow) "Minor" else "Below"`. -/
def classifyType (T : ThresholdSet) (v : ℚ) : Tier :=
  if T.majorLow ≤ v then .Major
  else if T.moderateLow ≤ v then .Moderate
  else if T.minorLow ≤ v then .Minor
  else .Below

/-- The map `kept.map(p => ({ t: p.t, ft: p.ft, type }))`. -/
def classifyPeak (T : ThresholdSet) (p : Sample) : Event :=
  ⟨p.t, p.ft, classifyType T p.ft⟩

/-- The extractor `extractFloodPeaks_NAVD(series, thresholdsNAVD88)`. -/
def extractFloodPeaks_NAVD (series : List RawSample) (T : ThresholdSet) :
    List Event :=
  if series.length < 3 then []
  else
    let pts := sortByTime (series.filterMap toSample)
    if pts.length < 3 then []
    else
      let cs := candidates pts
      if cs.isEmpty then []
      else (decluster minSepMs cs).map (classifyPeak T)

/-- The dedup key `` `${e.t}|${roundFt(Number(e.ft))}` `` of an event,
modelled as the pair (timestamp, rounded value). -/
def key (e : Event) : ℤ × ℚ := (e.t, roundFt e.ft)

/-- One iteration of the merge loop: skip `p` when its key is in `seen`,
otherwise `existing.push(p); seen.add(k)`. The accumulator is the pair
(events so far, keys seen so far). -/
def mergeStep (acc : List Event × List (ℤ × ℚ)) (p : Event) :
    List Event × List (ℤ × ℚ) :=
  if key p ∈ acc.2 then acc else (acc.1 ++ [p], key p :: acc.2)

/-- The comparator `(a, b) => new Date(a.t) - new Date(b.t)` on events. -/
def eventLE (a b : Event) : Prop := a.t ≤ b.t

instance : DecidableRel eventLE := fun a b => Int.decLe a.t b.t

instance : IsTotal Event eventLE := ⟨fun a b => le_total a.t b.t⟩

instance : IsTrans Event eventLE := ⟨fun _ _ _ => le_trans⟩

/-- The merge in `main`: seed `seen` with the keys of the existing events,
fold the batch through `mergeStep`, then
`existing.sort((a, b) => new Date(a.t) - new Date(b.t))` (stable). -/
def mergeEvents (existing peaks : List Event) : List Event :=
  ((peaks.foldl mergeStep (existing, existing.map key)).1).insertionSort eventLE

/-- The persisted cache document `data/bivalve_peaks_navd88.json`. `meta`
models caller-added fields that `main` never reads or writes (it mutates
only `events` and `lastProcessedISO` on the loaded object before rewriting
it whole). -/
structure Cache where
  thresholdsNAVD88 : Option ThresholdSet
  lastProcessedISO : Option ℤ
  events : List Event
  meta : List (String × String)
deriving DecidableEq, Repr

/-- Outcome of one run of `main`: `die` on missing thresholds (before any
fetch), early `return` on an empty series (no write), or `saveJSON` of the
updated cache. -/
inductive RunOutcome where
  | configError : RunOutcome
  | noop : RunOutcome
  | saved : Cache → RunOutcome
deriving DecidableEq, Repr

/-- Normalization `peaks = extractFloodPeaks_NAVD(...).map(p => ({ t: ISO(p.t),
ft: roundFt(p.ft), type: p.type }))` — timestamps are already instants in
the model, so only the value is rounded. -/
def normalizePeak (p : Event) : Event := ⟨p.t, roundFt p.ft, p.type⟩

/-- One update pass of `main` (incremental and backfill share this code
path), parameterized by the list of values the USGS fetch returned for the
window. Mirrors: threshold presence check (`die` before the fetch), empty
series early return, extraction, key-dedup merge, chronological re-sort,
and `lastProcessedISO = newest fetched timestamp` (`series[len-1].t`). -/
def mainPass (cache : Cache) (fetched : List RawSample) : RunOutcome :=
  match cache.thresholdsNAVD88 with
  | none => .configError
  | some T =>
      let series := fetchNormalize fetched
      if series.isEmpty then .noop
      else
        let peaks :=
          (extractFloodPeaks_NAVD (series.map fun s => ⟨some s.t, some s.ft⟩) T).map
            normalizePeak
        let existing := mergeEvents cache.events peaks
        let lastT :=
          match series.getLast? with
          | some s => some s.t
          | none => cache.lastProcessedISO
        .saved { cache with events := existing, lastProcessedISO := lastT }

/-- The on-disk store after a run: `saveJSON` is executed only on the
`saved` path; `die` and the empty-series `return` leave the file as it was. -/
def writtenStore (old : Cache) : RunOutcome → Cache
  | .saved c => c
  | _ => old

end Bivalve

namespace Bivalve

lemma declusterGo_ne_nil (minSep : ℤ) :
    ∀ (rest : List Sample) (cur : Sample), declusterGo minSep cur rest ≠ [] := by
  intro rest
  induction rest with
  | nil => intro cur; simp [declusterGo]
  | cons p rest ih =>
      intro cur
      unfold declusterGo
      split_ifs with h1 h2
      · exact ih p
      · exact ih cur
      · simp

/-- Claim C7: classification checks tiers highest-first with lower-inclusive
bounds (`value >= bound`), assigning Major, then Moderate, then Minor, else
Below; a value exactly equal to `majorLow` classifies as Major. -/
theorem c7_classification (T : ThresholdSet) (v : ℚ) :
    (classifyType T v = .Major ↔ T.majorLow ≤ v)
    ∧ (classifyType T v = .Moderate ↔ T.moderateLow ≤ v ∧ v < T.majorLow)
    ∧ (classifyType T v = .Minor ↔
        T.minorLow ≤ v ∧ v < T.moderateLow ∧ v < T.majorLow)
    ∧ (classifyType T v = .Below ↔
        v < T.minorLow ∧ v < T.moderateLow ∧ v < T.majorLow)
    ∧ classifyType T T.majorLow = .Major := by
  unfold classifyType
  refine ⟨?_, ?_, ?_, ?_, ?_⟩ <;> split_ifs <;> simp_all [not_le]

/-- Claim C4: an input series with fewer than 3 samples — including one that
drops below 3 samples after filtering out falsy timestamps and non-finite
values — yields an empty peak list. -/
theorem c4_short_series (series : List RawSample) (T : ThresholdSet)
    (h : series.length < 3 ∨ (series.filterMap toSample).length < 3) :
    extractFloodPeaks_NAVD series T = [] := by
  unfold extractFloodPeaks_NAVD
  rcases h with h | h
  · rw [if_pos h]
  · by_cases h1 : series.length < 3
    · rw [if_pos h1]
    · rw [if_neg h1]
      have hl : (sortByTime (series.filterMap toSample)).length < 3 := by
        unfold sortByTime
        rw [List.length_insertionSort]
        exact h
      simp only [hl, if_pos]

/-- Claim C4 witness: a 3-sample series with one non-finite value filtered
out returns no peaks. -/
theorem c4_short_series_witness :
    extractFloodPeaks_NAVD
        [⟨some 0, some 1⟩, ⟨some 1, none⟩, ⟨some 2, some 3⟩] ⟨1, 2, 3⟩ = [] :=
  c4_short_series _ _ (Or.inr (by decide))

/-- Claim C6: declustering keeps a current representative; within
`minSeparation` (inclusive) the representative is replaced only by a
strictly larger candidate (an exact value tie keeps the earlier one),
otherwise the representative is emitted and a new cluster starts; the final
representative is always emitted, so a nonempty candidate list yields a
nonempty output. For two candidates within `minSeparation` only the
larger-valued one survives; on a tie, the earlier. -/
theorem c6_decluster (minSep : ℤ) (p q : Sample) :
    (q.t - p.t ≤ minSep →
        decluster minSep [p, q] = [if p.ft < q.ft then q else p])
    ∧ (q.t - p.t ≤ minSep → q.ft = p.ft → decluster minSep [p, q] = [p])
    ∧ (minSep < q.t - p.t → decluster minSep [p, q] = [p, q])
    ∧ (∀ cs : List Sample, cs ≠ [] → decluster minSep cs ≠ []) := by
  refine ⟨?_, ?_, ?_, ?_⟩
  · intro hsep
    unfold decluster declusterGo
    rw [if_pos hsep]
    split_ifs with hlt <;> simp [declusterGo]
  · intro hsep htie
    unfold decluster declusterGo
    rw [if_pos hsep]
    have : ¬ p.ft < q.ft := by rw [htie]; exact lt_irrefl _
    rw [if_neg this]
    simp [declusterGo]
  · intro hsep
    unfold decluster declusterGo
    rw [if_neg (by omega)]
    simp [declusterGo]
  · intro cs hne
    match cs with
    | c :: cs' => exact declusterGo_ne_nil minSep cs' c

/-- Claim C6 witness: within separation the strictly larger candidate
survives, and on an exact tie the earlier one survives. -/
theorem c6_decluster_witness :
    decluster 10 [⟨0, 1⟩, ⟨5, 2⟩] = [⟨5, 2⟩]
    ∧ decluster 10 [⟨0, 3⟩, ⟨5, 3⟩] = [⟨0, 3⟩] := by
  constructor
  · have h := (c6_decluster 10 ⟨0, 1⟩ ⟨5, 2⟩).1 (by decide)
    simpa using h
  · exact ((c6_decluster 10 ⟨0, 3⟩ ⟨5, 3⟩).2.1 (by decide)) (by decide)

/-- Claim C10: the decluster distance test is inclusive (a candidate exactly
`minSeparation` after the representative joins its cluster) and is measured
against the current, possibly already replaced, representative — so one
cluster can span strictly more than `minSeparation` end to end, as the
concrete three-candidate run shows (span 20 > minSep 10, single survivor). -/
theorem c10_inclusive_span (minSep : ℤ) (p q : Sample) :
    (q.t - p.t = minSep →
        decluster minSep [p, q] = [if p.ft < q.ft then q else p])
    ∧ decluster 10 [⟨0, 1⟩, ⟨10, 2⟩, ⟨20, 3⟩] = [⟨20, 3⟩]
    ∧ (10 : ℤ) < 20 - 0 := by
  refine ⟨?_, by decide, by decide⟩
  intro hsep
  unfold decluster declusterGo
  rw [if_pos (le_of_eq hsep)]
  split_ifs with hlt <;> simp [declusterGo]

/-- Claim C10 witness: a candidate exactly `minSeparation` after the
representative joins the same cluster (single survivor). -/
theorem c10_inclusive_span_witness :
    decluster 10 [⟨0, 1⟩, ⟨10, 2⟩] = [⟨10, 2⟩] := by
  have h := (c10_inclusive_span 10 ⟨0, 1⟩ ⟨10, 2⟩).1 (by decide)
  simpa using h

end Bivalve

namespace Bivalve

/-- Claim C2 counterexample: with thresholds `{minorLow := 3, moderateLow :=
2, majorLow := 1}` — not strictly ascending — the pass does not fail with a
config error; it proceeds and writes the store. -/
theorem c2_counterexample :
    ¬ ((3 : ℚ) < 2 ∧ (2 : ℚ) < 1)
    ∧ mainPass ⟨some ⟨3, 2, 1⟩, none, [], []⟩ [⟨some 0, some 5⟩]
        ≠ RunOutcome.configError := by decide

/-- Claim C2 (amended): exactly a missing `thresholdsNAVD88` makes the pass
fail before any fetch — the outcome is a config error independent of
whatever the source would have returned — leaving the store unmodified.
Ascending order of a present threshold set is not validated. -/
theorem c2_missing_thresholds (cache : Cache)
    (h : cache.thresholdsNAVD88 = none) (fetched fetched' : List RawSample) :
    mainPass cache fetched = RunOutcome.configError
    ∧ mainPass cache fetched = mainPass cache fetched'
    ∧ writtenStore cache (mainPass cache fetched) = cache := by
  unfold mainPass
  rw [h]
  exact ⟨rfl, rfl, rfl⟩

/-- Claim C2 witness: a cache with no thresholds fails the same way for two
different fetch results and the store is untouched. -/
theorem c2_missing_thresholds_witness :
    mainPass ⟨none, none, [], []⟩ [] = RunOutcome.configError
    ∧ mainPass ⟨none, none, [], []⟩ []
        = mainPass ⟨none, none, [], []⟩ [⟨some 0, some 5⟩]
    ∧ writtenStore ⟨none, none, [], []⟩ (mainPass ⟨none, none, [], []⟩ [])
        = ⟨none, none, [], []⟩ :=
  c2_missing_thresholds _ rfl _ _

/-- Claim C8: a pass in which the source yields zero (valid) samples
performs no store mutation at all and completes as a no-op, not an error. -/
theorem c8_empty_series (cache : Cache) (T : ThresholdSet)
    (fetched : List RawSample)
    (hT : cache.thresholdsNAVD88 = some T)
    (h0 : fetchNormalize fetched = []) :
    mainPass cache fetched = RunOutcome.noop
    ∧ writtenStore cache (mainPass cache fetched) = cache := by
  obtain ⟨thr, lastP, evs, md⟩ := cache
  simp only [Cache.thresholdsNAVD88] at hT
  subst hT
  unfold mainPass
  simp only [h0]
  exact ⟨rfl, rfl⟩

/-- Claim C8 witness: a fetch returning only an invalid point (falsy
timestamp) normalizes to zero samples; the pass is a no-op. -/
theorem c8_empty_series_witness :
    mainPass ⟨some ⟨1, 2, 3⟩, some 7, [], []⟩ [⟨none, some 5⟩] = RunOutcome.noop
    ∧ writtenStore ⟨some ⟨1, 2, 3⟩, some 7, [], []⟩
        (mainPass ⟨some ⟨1, 2, 3⟩, some 7, [], []⟩ [⟨none, some 5⟩])
        = ⟨some ⟨1, 2, 3⟩, some 7, [], []⟩ :=
  c8_empty_series _ ⟨1, 2, 3⟩ _ rfl (by decide)

/-- Claim C9: a successful (saved) pass rewrites the document preserving
every field other than the event list and the watermark — the stored
thresholds and any caller-added metadata are unchanged. -/
theorem c9_frame (cache : Cache) (fetched : List RawSample) (c' : Cache)
    (h : mainPass cache fetched = RunOutcome.saved c') :
    c'.thresholdsNAVD88 = cache.thresholdsNAVD88 ∧ c'.meta = cache.meta := by
  obtain ⟨thr, lastP, evs, md⟩ := cache
  unfold mainPass at h
  cases thr with
  | none => exact absurd h (by simp)
  | some T =>
      simp only at h
      by_cases he : (fetchNormalize fetched).isEmpty
      · rw [if_pos he] at h
        exact absurd h (by simp)
      · rw [if_neg he] at h
        simp only [RunOutcome.saved.injEq] at h
        rw [← h]
        exact ⟨rfl, rfl⟩

/-- Claim C9 witness: a concrete saved pass preserves thresholds and a
caller-added metadata field. -/
theorem c9_frame_witness :
    (⟨some ⟨1, 2, 3⟩, some 0, [], [("note", "kept")]⟩ : Cache).thresholdsNAVD88
        = (⟨some ⟨1, 2, 3⟩, none, [], [("note", "kept")]⟩ : Cache).thresholdsNAVD88
    ∧ (⟨some ⟨1, 2, 3⟩, some 0, [], [("note", "kept")]⟩ : Cache).meta
        = (⟨some ⟨1, 2, 3⟩, none, [], [("note", "kept")]⟩ : Cache).meta :=
  c9_frame ⟨some ⟨1, 2, 3⟩, none, [], [("note", "kept")]⟩ [⟨some 0, some 1⟩]
    ⟨some ⟨1, 2, 3⟩, some 0, [], [("note", "kept")]⟩ (by decide)

end Bivalve

namespace Bivalve

lemma sorted_le_getLast {l : List Sample} (hp : l.Pairwise sampleLE)
    (hne : l ≠ []) : ∀ x ∈ l, x.t ≤ (l.getLast hne).t := by
  induction l with
  | nil => exact absurd rfl hne
  | cons a t ih =>
      intro x hx
      cases t with
      | nil =>
          rw [List.mem_singleton] at hx
          subst hx
          exact le_refl _
      | cons b t' =>
          rw [List.getLast_cons (by simp)]
          rcases List.mem_cons.mp hx with rfl | hx
          · exact List.rel_of_pairwise_cons hp (List.getLast_mem _)
          · exact ih (List.Pairwise.of_cons hp) (by simp) x hx

end Bivalve

namespace Bivalve

/-- Claim C1 counterexample: a pass over a store with watermark 1000 that
observes a single sample at instant 0 (legal in backfill mode, and in
incremental mode via the overlap buffer) rewrites the watermark to 0 —
not to `max 1000 0 = 1000`: the watermark decreases. -/
theorem c1_counterexample :
    (writtenStore ⟨some ⟨1, 2, 3⟩, some 1000, [], []⟩
        (mainPass ⟨some ⟨1, 2, 3⟩, some 1000, [], []⟩
          [⟨some 0, some 5⟩])).lastProcessedISO = some 0
    ∧ some (0 : ℤ) ≠ some (max (1000 : ℤ) 0) := by decide

/-- Claim C1 (amended): after a pass that observes at least one sample, the
watermark equals the newest sample instant observed in the pass, regardless
of the prior watermark (it is overwritten, not combined with `max`, so it
can decrease — see the counterexample). -/
theorem c1_watermark (cache : Cache) (T : ThresholdSet)
    (fetched : List RawSample)
    (hT : cache.thresholdsNAVD88 = some T)
    (hne : fetchNormalize fetched ≠ []) :
    ∃ m, (writtenStore cache (mainPass cache fetched)).lastProcessedISO = some m
      ∧ (∃ s ∈ fetchNormalize fetched, s.t = m)
      ∧ (∀ s ∈ fetchNormalize fetched, s.t ≤ m) := by
  obtain ⟨thr, lastP, evs, md⟩ := cache
  simp only [Cache.thresholdsNAVD88] at hT
  subst hT
  have hie : (fetchNormalize fetched).isEmpty = false := by
    simpa [List.isEmpty_iff] using hne
  have hsorted : (fetchNormalize fetched).Pairwise sampleLE :=
    List.sorted_insertionSort sampleLE _
  refine ⟨((fetchNormalize fetched).getLast hne).t, ?_, ?_, ?_⟩
  · unfold mainPass
    simp only [hie, Bool.false_eq_true, if_false,
      List.getLast?_eq_getLast _ hne, writtenStore]
  · exact ⟨_, List.getLast_mem hne, rfl⟩
  · exact sorted_le_getLast hsorted hne

/-- Claim C1 witness: a concrete pass whose single observed sample is the
resulting watermark. -/
theorem c1_watermark_witness :
    ∃ m, (writtenStore ⟨some ⟨1, 2, 3⟩, some 1000, [], []⟩
        (mainPass ⟨some ⟨1, 2, 3⟩, some 1000, [], []⟩
          [⟨some 0, some 5⟩])).lastProcessedISO = some m
      ∧ (∃ s ∈ fetchNormalize [⟨some 0, some 5⟩], s.t = m)
      ∧ (∀ s ∈ fetchNormalize [⟨some 0, some 5⟩], s.t ≤ m) :=
  c1_watermark ⟨some ⟨1, 2, 3⟩, some 1000, [], []⟩ ⟨1, 2, 3⟩
    [⟨some 0, some 5⟩] rfl (by decide)

end Bivalve

namespace Bivalve

/-- Spec-side characterization of candidate detection, following the spec's
wording, for comparison with the source-translated `candidates`: sample `i`
of `pts` is selected iff it is interior (`0 < i` and `i + 1 < pts.length`,
i.e. both neighbours exist) and `value[i] >= value[i-1]`,
`value[i] >= value[i+1]`, excluding the case of all three values exactly
equal (flat plateau). -/
def candidateSpecAt (pts : List Sample) (i : ℕ) : Option Sample :=
  if i = 0 then none
  else
    match pts[i - 1]?, pts[i]?, pts[i + 1]? with
    | some a, some b, some c =>
        if b.ft ≥ a.ft ∧ b.ft ≥ c.ft ∧ ¬(b.ft = a.ft ∧ b.ft = c.ft) then some b
        else none
    | _, _, _ => none

lemma candidateSpecAt_shift (a : Sample) (tl : List Sample) (i : ℕ) :
    candidateSpecAt (a :: tl) (i + 2) = candidateSpecAt tl (i + 1) := by
  unfold candidateSpecAt
  simp

lemma candidateSpecAt_one (a b c : Sample) (rest : List Sample) :
    (candidateSpecAt (a :: b :: c :: rest) 1).toList =
      if candidateCond a b c then [b] else [] := by
  unfold candidateSpecAt candidateCond
  simp only [one_ne_zero, if_false, List.getElem?_cons_zero,
    List.getElem?_cons_succ, Nat.sub_self, ge_iff_le]
  split_ifs with h1 h2 <;> first
    | rfl
    | (exfalso; tauto)

lemma candidateSpecList_cons (a : Sample) (tl : List Sample) :
    (List.range (a :: tl).length).filterMap (candidateSpecAt (a :: tl)) =
      (candidateSpecAt (a :: tl) 1).toList ++
        (List.range tl.length).filterMap (candidateSpecAt tl) := by
  rw [List.length_cons, List.range_succ_eq_map,
    List.filterMap_cons_none (by simp [candidateSpecAt]), List.filterMap_map]
  cases tl with
  | nil => simp [candidateSpecAt]
  | cons b tl' =>
      rw [List.length_cons, List.range_succ_eq_map]
      have hshift : ∀ i ∈ List.range tl'.length,
          (candidateSpecAt (a :: b :: tl') ∘ Nat.succ) (Nat.succ i) =
            candidateSpecAt (b :: tl') (Nat.succ i) := by
        intro i _
        exact candidateSpecAt_shift a (b :: tl') i
      cases h1 : candidateSpecAt (a :: b :: tl') 1 with
      | none =>
          rw [List.filterMap_cons_none (by simpa using h1),
            List.filterMap_cons_none
              (f := candidateSpecAt (b :: tl')) (by simp [candidateSpecAt]),
            List.filterMap_map, List.filterMap_map]
          simp only [h1, Option.toList_none, List.nil_append]
          exact List.filterMap_congr fun i hi => hshift i hi
      | some v =>
          rw [List.filterMap_cons_some (by simpa using h1),
            List.filterMap_cons_none
              (f := candidateSpecAt (b :: tl')) (by simp [candidateSpecAt]),
            List.filterMap_map, List.filterMap_map]
          simp only [h1, Option.toList_some, List.singleton_append,
            List.cons.injEq, true_and]
          exact List.filterMap_congr fun i hi => hshift i hi

/-- Claim C5: candidate detection selects exactly the interior samples `i`
(`0 < i < n - 1`) with `value[i] >= value[i-1]` and `value[i] >= value[i+1]`,
excluding the all-equal flat plateau; the first and last samples are never
candidates (`candidateSpecAt` returns `none` at `i = 0` and whenever
`pts[i+1]` does not exist). -/
theorem c5_candidates (pts : List Sample) :
    candidates pts = (List.range pts.length).filterMap (candidateSpecAt pts) := by
  induction pts using candidates.induct with
  | case1 a b c rest ih =>
      rw [candidateSpecList_cons, candidateSpecAt_one]
      show (if candidateCond a b c then [b] else []) ++ candidates (b :: c :: rest) = _
      rw [ih]
  | case2 pts h =>
      cases pts with
      | nil => rfl
      | cons a tl =>
          cases tl with
          | nil =>
              rw [show List.range ([a] : List Sample).length = [0] from rfl,
                List.filterMap_cons_none (by simp [candidateSpecAt])]
              rfl
          | cons b tl2 =>
              cases tl2 with
              | nil =>
                  have h1 : candidateSpecAt [a, b] 1 = none := by
                    unfold candidateSpecAt
                    simp
                  rw [show List.range ([a, b] : List Sample).length = [0, 1] from rfl,
                    List.filterMap_cons_none (by simp [candidateSpecAt]),
                    List.filterMap_cons_none h1]
                  rfl
              | cons c rest => exact absurd rfl (h a b c rest)

end Bivalve

namespace Bivalve

lemma mergeFold_inv (B : List Event) :
    ∀ acc : List Event × List (ℤ × ℚ),
      (∀ k, k ∈ acc.2 ↔ k ∈ acc.1.map key) →
      (∀ k, k ∈ (B.foldl mergeStep acc).2 ↔
          k ∈ (B.foldl mergeStep acc).1.map key)
      ∧ (∀ k, k ∈ (B.foldl mergeStep acc).1.map key ↔
          k ∈ acc.1.map key ∨ k ∈ B.map key) := by
  induction B with
  | nil =>
      intro acc h
      exact ⟨h, fun k => by simp⟩
  | cons p B ih =>
      intro acc h
      rw [List.foldl_cons]
      by_cases hk : key p ∈ acc.2
      · rw [show mergeStep acc p = acc from by simp [mergeStep, hk]]
        obtain ⟨h1, h2⟩ := ih acc h
        refine ⟨h1, fun k => ?_⟩
        rw [h2 k]
        have hp : key p ∈ acc.1.map key := (h _).mp hk
        simp only [List.map_cons, List.mem_cons]
        constructor
        · rintro (hx | hx)
          · exact Or.inl hx
          · exact Or.inr (Or.inr hx)
        · rintro (hx | rfl | hx)
          · exact Or.inl hx
          · exact Or.inl hp
          · exact Or.inr hx
      · rw [show mergeStep acc p = (acc.1 ++ [p], key p :: acc.2) from by
          simp [mergeStep, hk]]
        have hinv : ∀ k, k ∈ (acc.1 ++ [p], key p :: acc.2).2 ↔
            k ∈ (acc.1 ++ [p], key p :: acc.2).1.map key := by
          intro k
          simp only [List.map_append, List.map_cons, List.map_nil,
            List.mem_append, List.mem_cons, List.mem_singleton,
            List.not_mem_nil, or_false]
          rw [← h k]
          tauto
        obtain ⟨h1, h2⟩ := ih _ hinv
        refine ⟨h1, fun k => ?_⟩
        rw [h2 k]
        simp only [List.map_append, List.map_cons, List.map_nil,
          List.mem_append, List.mem_cons, List.mem_singleton,
          List.not_mem_nil, or_false]
        tauto

lemma mergeFold_noop (B : List Event) :
    ∀ acc : List Event × List (ℤ × ℚ),
      (∀ p ∈ B, key p ∈ acc.2) → B.foldl mergeStep acc = acc := by
  induction B with
  | nil => intro acc _; rfl
  | cons p B ih =>
      intro acc h
      rw [List.foldl_cons,
        show mergeStep acc p = acc from by
          simp [mergeStep, h p (List.mem_cons_self p B)]]
      exact ih acc fun q hq => h q (List.mem_cons_of_mem p hq)

lemma mergeFold_nodup (B : List Event) :
    ∀ acc : List Event × List (ℤ × ℚ),
      (∀ k, k ∈ acc.2 ↔ k ∈ acc.1.map key) → (acc.1.map key).Nodup →
      ((B.foldl mergeStep acc).1.map key).Nodup := by
  induction B with
  | nil => intro acc _ hn; exact hn
  | cons p B ih =>
      intro acc h hn
      rw [List.foldl_cons]
      by_cases hk : key p ∈ acc.2
      · rw [show mergeStep acc p = acc from by simp [mergeStep, hk]]
        exact ih acc h hn
      · rw [show mergeStep acc p = (acc.1 ++ [p], key p :: acc.2) from by
          simp [mergeStep, hk]]
        apply ih
        · intro k
          simp only [List.map_append, List.map_cons, List.map_nil,
            List.mem_append, List.mem_cons, List.mem_singleton,
            List.not_mem_nil, or_false]
          rw [← h k]
          tauto
        · have hnotin : key p ∉ acc.1.map key := fun hc => hk ((h _).mpr hc)
          simp only [List.map_append, List.map_cons, List.map_nil]
          rw [List.nodup_append]
          exact ⟨hn, List.nodup_singleton _, by simpa using hnotin⟩

lemma mergeEvents_map_key_mem (S B : List Event) (k : ℤ × ℚ) :
    k ∈ (mergeEvents S B).map key ↔ k ∈ S.map key ∨ k ∈ B.map key := by
  unfold mergeEvents
  have hperm : List.Perm
      (((B.foldl mergeStep (S, S.map key)).1.insertionSort eventLE).map key)
      ((B.foldl mergeStep (S, S.map key)).1.map key) :=
    (List.perm_insertionSort eventLE _).map key
  rw [hperm.mem_iff]
  exact (mergeFold_inv B (S, S.map key) fun _ => Iff.rfl).2 k

lemma mergeEvents_sorted (S B : List Event) :
    (mergeEvents S B).Pairwise eventLE :=
  List.sorted_insertionSort eventLE _

lemma mergeEvents_idem (S B : List Event) :
    mergeEvents (mergeEvents S B) B = mergeEvents S B := by
  have hkeys : ∀ p ∈ B, key p ∈ (mergeEvents S B).map key := by
    intro p hp
    rw [mergeEvents_map_key_mem]
    exact Or.inr (List.mem_map_of_mem key hp)
  conv_lhs => rw [mergeEvents]
  rw [mergeFold_noop B _ fun p hp => hkeys p hp]
  exact List.Sorted.insertionSort_eq (mergeEvents_sorted S B)

/-- Claim C3: merge is idempotent — applying the same batch twice yields
exactly the same store state as applying it once; the merged keys are
exactly the union of the existing and batch keys (an event is inserted iff
its composite key `(timestamp, rounded value)` is not already present, so
key-uniqueness of the store is preserved); and after the batch the full
collection is sorted by timestamp ascending. -/
theorem c3_merge (S B : List Event) (hS : (S.map key).Nodup) :
    mergeEvents (mergeEvents S B) B = mergeEvents S B
    ∧ (∀ k, k ∈ (mergeEvents S B).map key ↔ k ∈ S.map key ∨ k ∈ B.map key)
    ∧ ((mergeEvents S B).map key).Nodup
    ∧ (mergeEvents S B).Pairwise eventLE := by
  refine ⟨mergeEvents_idem S B, mergeEvents_map_key_mem S B, ?_,
    mergeEvents_sorted S B⟩
  unfold mergeEvents
  have hperm : List.Perm
      (((B.foldl mergeStep (S, S.map key)).1.insertionSort eventLE).map key)
      ((B.foldl mergeStep (S, S.map key)).1.map key) :=
    (List.perm_insertionSort eventLE _).map key
  rw [hperm.nodup_iff]
  exact mergeFold_nodup B (S, S.map key) (fun _ => Iff.rfl) hS

/-- Claim C3 witness: a concrete duplicate-heavy batch — the second merge of
the same batch changes nothing. -/
theorem c3_merge_witness :
    mergeEvents
        (mergeEvents [⟨5, 1, .Below⟩] [⟨3, 2, .Minor⟩, ⟨3, 2, .Minor⟩])
        [⟨3, 2, .Minor⟩, ⟨3, 2, .Minor⟩]
      = mergeEvents [⟨5, 1, .Below⟩] [⟨3, 2, .Minor⟩, ⟨3, 2, .Minor⟩] :=
  (c3_merge [⟨5, 1, .Below⟩] [⟨3, 2, .Minor⟩, ⟨3, 2, .Minor⟩] (by decide)).1

end Bivalve
